import Mathlib

/-!
Verification development for the `db_hand` dataset-loading utilities.

The repository consists of per-dataset tabular loaders (handler_UCI_AirQuality,
handler_AmesHousing, handler_AutoMPG, handler_UCI_SkillCraft, ...), all of which
share one pipeline shape

  parse -> filter rows -> coerce to float -> project columns (target last) ->
  optionally rescale all columns but the last -> dispatch on return_type,

and one binary raster (PGM) decoder plus batch image reader in
handler_CroppedYaleFacesB.  This file embeds those pieces as executable Lean
functions (numeric fields as rationals) and proves the stated properties.
-/

namespace DbHand

/-- Raw field of a parsed table: pandas cells are either numeric or string
typed (e.g. the missing-value token "?" or comma-decimal readings). -/
inductive Cell
  | num (q : ℚ)
  | str (s : String)
deriving DecidableEq, Repr

/-- Value of a digit string, most significant first. -/
def digitsToNat (ds : List Char) : Nat :=
  ds.foldl (fun a c => 10 * a + (c.toNat - 48)) 0

/-- Unsigned decimal literal (integer part, optional separator and fraction).
The comma is accepted as a decimal separator: the loaders normalize
locale-specific decimals by replacing a comma with a period before coercion. -/
def decimalMag (cs : List Char) : ℚ :=
  let intPart := cs.takeWhile Char.isDigit
  let rest := cs.dropWhile Char.isDigit
  match rest with
  | c :: frac =>
      if c = '.' ∨ c = ',' then
        let fdigits := frac.takeWhile Char.isDigit
        (digitsToNat intPart : ℚ) + (digitsToNat fdigits : ℚ) / (10 ^ fdigits.length)
      else (digitsToNat intPart : ℚ)
  | [] => (digitsToNat intPart : ℚ)

/-- Signed decimal literal. -/
def decimalVal : List Char → ℚ
  | '-' :: rest => - decimalMag rest
  | cs => decimalMag cs

/-- Coercion of a retained raw field to a rational number, the embedding of
`astype(float)` / `pd.to_numeric` applied after filtering. -/
def coerce : Cell → ℚ
  | .num q => q
  | .str s => decimalVal s.toList

/-- Raw table row as parsed from the source file. -/
abbrev Row := List Cell

/-- Numeric output table: a list of rows of rationals. -/
abbrev Table := List (List ℚ)

/-- Sequential row filtering: each handler applies its row predicates one
after the other (`data = data[pred]` for each declared filter). -/
def applyFilters (fs : List (Row → Bool)) (rows : List Row) : List Row :=
  fs.foldl (fun acc f => acc.filter f) rows

/-- Column projection of one row: `data[cols]`, the declared output column
identifiers in order with the target identifier last, each coerced to float. -/
def projectRow (cols : List Nat) (r : Row) : List ℚ :=
  cols.map fun j => coerce (r.getD j (.num 0))

/-- Column `j` of a numeric table. -/
def colOf (t : Table) (j : Nat) : List ℚ :=
  t.map fun r => r.getD j 0

/-- Minimum of a column (0 for the empty column, which no handler produces). -/
def listMin : List ℚ → ℚ
  | [] => 0
  | x :: xs => xs.foldl min x

/-- Maximum of a column (0 for the empty column). -/
def listMax : List ℚ → ℚ
  | [] => 0
  | x :: xs => xs.foldl max x

/-- Guard for a zero observed range, the embedding of sklearn's
`_handle_zeros_in_scale`: a zero denominator is replaced by 1. -/
def rangeGuard (d : ℚ) : ℚ :=
  if d = 0 then 1 else d

/-- Per-entry min-max transform of sklearn's `MinMaxScaler(feature_range =
(lo, hi))` fitted on the column `xs`. -/
def minMaxF (lo hi : ℚ) (xs : List ℚ) (x : ℚ) : ℚ :=
  (x - listMin xs) / rangeGuard (listMax xs - listMin xs) * (hi - lo) + lo

/-- The scaling assignment `data[cols[:-1]] = T(data[cols[:-1]])`: the
column-wise transform `f` (fitted on each column of the table) is applied to
every entry whose column index is not the last one of its row. -/
def scaleAllButLast (f : List ℚ → ℚ → ℚ) (t : Table) : Table :=
  t.map fun r => r.mapIdx fun j x => if j + 1 < r.length then f (colOf t j) x else x

/-- Dispatch on the `scaling` argument shared by every tabular handler:
`'MinMax'` applies `MinMaxScaler(feature_range=(-1, 1))`, `'MeanVar'` applies
`sklearn.preprocessing.scale`, and any other value leaves the table unchanged.
The per-column standardization transform of `scale` divides by a standard
deviation that is an irrational square root, so it is a parameter `mvT` here;
every theorem below holds for all values of that parameter. -/
def applyScaling (scaling : String) (mvT : List ℚ → ℚ → ℚ) (t : Table) : Table :=
  if scaling = "MinMax" then scaleAllButLast (minMaxF (-1) 1) t
  else if scaling = "MeanVar" then scaleAllButLast mvT t
  else t

/-- Errors a handler call can surface: the explicit `RuntimeError` raised on a
bad `return_type`, the `NameError` from reading a never-assigned local, and the
`IndexError` from indexing an empty file list. -/
inductive PyError
  | runtimeError
  | nameError
  | indexError
deriving DecidableEq, Repr

/-- Configuration of one tabular handler: its declared row filters, the output
column identifiers in order (target last), and whether the handler offers the
`'pd'` labeled-table return type in addition to `'np'`. -/
structure TabularConfig where
  filters : List (Row → Bool)
  colIdx : List Nat
  allowPd : Bool

/-- The shared `read_all` pipeline of the tabular handlers: filter rows in
declared order, coerce and project onto the declared columns (target last),
apply the selected scaling to all columns but the last, then dispatch on
`return_type`, raising `RuntimeError` for an unsupported value. -/
def read_all (cfg : TabularConfig) (return_type scaling : String)
    (mvT : List ℚ → ℚ → ℚ) (rows : List Row) : Except PyError Table :=
  let kept := applyFilters cfg.filters rows
  let proj := kept.map (projectRow cfg.colIdx)
  let scaled := applyScaling scaling mvT proj
  if return_type = "np" then .ok scaled
  else if cfg.allowPd = true ∧ return_type = "pd" then .ok scaled
  else .error .runtimeError

/-- Row filter `data[data[col] != sentinel]` for a numeric missing-value
sentinel such as the -200 flag of the air-quality data. -/
def neqNumFilter (j : Nat) (q : ℚ) : Row → Bool :=
  fun r => !(r.getD j (.num 0) == .num q)

/-- Row filter `data[~(data[col] == tok)]` for a string missing-value token
such as the `?` of the auto-mpg horsepower column. -/
def neqStrFilter (j : Nat) (s : String) : Row → Bool :=
  fun r => !(r.getD j (.num 0) == .str s)

/-- Configuration of `handler_UCI_AirQuality.read_all`: twelve retained
columns, one `!= -200` filter per column in column order, no reordering (the
target AH is already the last retained column), and both `'np'` and `'pd'`
return types. -/
def airQualityConfig : TabularConfig where
  filters := (List.range 12).map fun j => neqNumFilter j (-200)
  colIdx := List.range 12
  allowPd := true

/-- Output columns of `handler_AutoMPG.read_all` as a function of `features`,
exactly as the two branches compare: both test `features == 'continuous'`, so
the second branch (the discrete projection `[0, 5, 6, 7]`) is dead code and
every other value keeps all eight raw columns. -/
def autoMPG_cols (features : String) : List Nat :=
  if features = "continuous" then [1, 2, 3, 4, 7]
  else if features = "continuous" then [0, 5, 6, 7]
  else List.range 8

/-- The `handler_AutoMPG.read_all` pipeline: one `horsepower != '?'` filter
(raw column 2), the `features`-dependent projection with the target mpg (raw
column 7) last, and an `'np'`-only return type. -/
def autoMPG_read_all (return_type scaling features : String)
    (mvT : List ℚ → ℚ → ℚ) (rows : List Row) : Except PyError Table :=
  read_all
    { filters := [neqStrFilter 2 "?"]
    , colIdx := autoMPG_cols features
    , allowPd := false }
    return_type scaling mvT rows

/-- Helper: sequentially filtering by a list of predicates equals one filter
by their conjunction, applied to the original row list. -/
theorem applyFilters_eq_filter_all (fs : List (Row → Bool)) (rows : List Row) :
    applyFilters fs rows = rows.filter (fun r => fs.all fun f => f r) := by
  induction fs generalizing rows with
  | nil => simp [applyFilters]
  | cons f fs ih =>
      have hstep : applyFilters (f :: fs) rows = applyFilters fs (rows.filter f) := rfl
      rw [hstep, ih, List.filter_filter]
      apply List.filter_congr
      intro r _
      simp [Bool.and_comm]

/-- C2. The filtering stage of every tabular loader retains exactly the rows
satisfying all declared filters (logical AND, applied in declared order), in
their original relative order, so every retained row passes each filter and the
output row count is the input count minus the count of rows failing some
filter. -/
theorem filter_stage_exact (fs : List (Row → Bool)) (rows : List Row) :
    applyFilters fs rows = rows.filter (fun r => fs.all fun f => f r) ∧
    (applyFilters fs rows).length
      = rows.length - (rows.countP fun r => !(fs.all fun f => f r)) ∧
    ∀ r ∈ applyFilters fs rows, ∀ f ∈ fs, f r = true := by
  refine ⟨applyFilters_eq_filter_all fs rows, ?_, ?_⟩
  · rw [applyFilters_eq_filter_all fs rows, ← List.countP_eq_length_filter]
    have hsplit : rows.length
        = (rows.countP fun r => fs.all fun f => f r)
          + (rows.countP fun r => !(fs.all fun f => f r)) := by
      have h := List.length_eq_countP_add_countP
        (p := fun r => fs.all fun f => f r) (l := rows)
      have hnot : (rows.countP fun a => decide ¬((fs.all fun f => f a) = true))
          = rows.countP fun r => !(fs.all fun f => f r) := by
        apply List.countP_congr
        intro r _
        simp
      rw [hnot] at h
      exact h
    exact Nat.eq_sub_of_add_eq hsplit.symm
  · intro r hr f hf
    rw [applyFilters_eq_filter_all fs rows] at hr
    have hall := List.of_mem_filter hr
    simpa using List.all_eq_true.mp hall f hf

/-- C7. Calling a tabular loader with a `return_type` outside its supported
set (only `'np'`, or `'np'` and `'pd'` where the labeled table is offered)
raises the explicit RuntimeError and returns no table: there is no silent
fallback to a default return shape. -/
theorem invalid_return_type_errors (cfg : TabularConfig) (rt scaling : String)
    (mvT : List ℚ → ℚ → ℚ) (rows : List Row)
    (hnp : rt ≠ "np") (hpd : cfg.allowPd = false ∨ rt ≠ "pd") :
    read_all cfg rt scaling mvT rows = .error .runtimeError := by
  have hcond : ¬(cfg.allowPd = true ∧ rt = "pd") := by
    rcases hpd with h | h
    · rintro ⟨h1, _⟩
      rw [h] at h1
      cases h1
    · rintro ⟨_, h2⟩
      exact h h2
  simp only [read_all]
  rw [if_neg hnp, if_neg hcond]

/-- Witness for C7: the air-quality loader called with `return_type = 'list'`
(unsupported) on a one-row table errors out. -/
theorem invalid_return_type_errors_witness :
    read_all airQualityConfig "list" "None" (fun _ x => x)
        [[Cell.num 1]] = .error .runtimeError :=
  invalid_return_type_errors airQualityConfig "list" "None" (fun _ x => x)
    [[Cell.num 1]] (by decide) (Or.inr (by decide))

/-- C8 counterexample: a scaling value outside {'None', 'MinMax', 'MeanVar'}
does not raise; the call returns the table unscaled. Here `scaling = 'Foo'` on
a two-column table returns the projected, unscaled rows. -/
theorem unknown_scaling_returns_table :
    read_all ⟨[], [0, 1], false⟩ "np" "Foo" (fun _ x => x)
        [[Cell.num 3, Cell.num 7], [Cell.num 4, Cell.num 9]]
      = .ok [[3, 7], [4, 9]] ∧
    "Foo" ≠ "None" ∧ "Foo" ≠ "MinMax" ∧ "Foo" ≠ "MeanVar" := by
  refine ⟨?_, by decide, by decide, by decide⟩
  rfl

/-- C8 amended. A scaling value other than `'MinMax'` and `'MeanVar'` is
silently ignored: both scaling branches are skipped and the call behaves
exactly as `scaling = 'None'`, returning the unscaled table. -/
theorem unknown_scaling_ignored (cfg : TabularConfig) (rt scaling : String)
    (mvT : List ℚ → ℚ → ℚ) (rows : List Row)
    (h1 : scaling ≠ "MinMax") (h2 : scaling ≠ "MeanVar") :
    read_all cfg rt scaling mvT rows = read_all cfg rt "None" mvT rows := by
  simp only [read_all, applyScaling]
  rw [if_neg h1, if_neg h2, if_neg (by decide : ¬("None" = "MinMax")),
    if_neg (by decide : ¬("None" = "MeanVar"))]

/-- Witness for C8's amended claim: `scaling = 'Foo'` behaves as `'None'` at a
concrete input. -/
theorem unknown_scaling_ignored_witness :
    read_all airQualityConfig "np" "Foo" (fun _ x => x) [[Cell.num 2]]
      = read_all airQualityConfig "np" "None" (fun _ x => x) [[Cell.num 2]] :=
  unknown_scaling_ignored airQualityConfig "np" "Foo" (fun _ x => x)
    [[Cell.num 2]] (by decide) (by decide)

/-- Helper: a successful `read_all` call returns the filtered, projected and
scaled table, whatever the accepted return type was. -/
theorem read_all_ok_eq (cfg : TabularConfig) (rt scaling : String)
    (mvT : List ℚ → ℚ → ℚ) (rows : List Row) (t : Table)
    (hok : read_all cfg rt scaling mvT rows = .ok t) :
    t = applyScaling scaling mvT
        ((applyFilters cfg.filters rows).map (projectRow cfg.colIdx)) := by
  simp only [read_all] at hok
  split at hok
  · exact (Except.ok.inj hok).symm
  · split at hok
    · exact (Except.ok.inj hok).symm
    · cases hok

/-- Helper: the scaling assignment keeps the number of rows. -/
theorem scaleAllButLast_length (f : List ℚ → ℚ → ℚ) (t : Table) :
    (scaleAllButLast f t).length = t.length :=
  List.length_map _ _

/-- Helper: the scaling assignment keeps every row's length. -/
theorem scaleAllButLast_row_length (f : List ℚ → ℚ → ℚ) (t : Table)
    (i : Nat) (hi : i < t.length) :
    ((scaleAllButLast f t).getD i []).length = (t.getD i []).length := by
  have hi2 : i < (scaleAllButLast f t).length := by rwa [scaleAllButLast_length]
  rw [List.getD_eq_getElem _ _ hi2, List.getD_eq_getElem _ _ hi]
  simp [scaleAllButLast]

/-- Helper: the scaling assignment never overwrites the last entry of a row,
because the transform is applied only at indices `j` with `j + 1 < r.length`. -/
theorem scaleAllButLast_getD_last (f : List ℚ → ℚ → ℚ) (t : Table)
    (i : Nat) (hi : i < t.length) (h0 : 0 < (t.getD i []).length) :
    ((scaleAllButLast f t).getD i []).getD ((t.getD i []).length - 1) 0
      = (t.getD i []).getD ((t.getD i []).length - 1) 0 := by
  have hi2 : i < (scaleAllButLast f t).length := by rwa [scaleAllButLast_length]
  rw [List.getD_eq_getElem _ _ hi] at h0
  rw [List.getD_eq_getElem _ _ hi2, List.getD_eq_getElem _ _ hi]
  simp only [scaleAllButLast, List.getElem_map]
  set r := t[i] with hr
  have hlt : r.length - 1 < (r.mapIdx fun j x =>
      if j + 1 < r.length then f (colOf t j) x else x).length := by
    rw [List.length_mapIdx]
    omega
  have hlt2 : r.length - 1 < r.length := by omega
  rw [List.getD_eq_getElem _ _ hlt, List.getD_eq_getElem _ _ hlt2]
  rw [List.getElem_mapIdx]
  have hcond : ¬(r.length - 1 + 1 < r.length) := by omega
  rw [if_neg hcond]

/-- Helper: `applyScaling` keeps the number of rows for every scaling value. -/
theorem applyScaling_length (scaling : String) (mvT : List ℚ → ℚ → ℚ)
    (t : Table) : (applyScaling scaling mvT t).length = t.length := by
  unfold applyScaling
  split
  · exact scaleAllButLast_length _ _
  · split
    · exact scaleAllButLast_length _ _
    · rfl

/-- Helper: `applyScaling` keeps every row's length for every scaling value. -/
theorem applyScaling_row_length (scaling : String) (mvT : List ℚ → ℚ → ℚ)
    (t : Table) (i : Nat) (hi : i < t.length) :
    ((applyScaling scaling mvT t).getD i []).length = (t.getD i []).length := by
  unfold applyScaling
  split
  · exact scaleAllButLast_row_length _ _ _ hi
  · split
    · exact scaleAllButLast_row_length _ _ _ hi
    · rfl

/-- Helper: `applyScaling` never modifies the last entry of a row, for every
scaling value and every standardization transform. -/
theorem applyScaling_getD_last (scaling : String) (mvT : List ℚ → ℚ → ℚ)
    (t : Table) (i : Nat) (hi : i < t.length) (h0 : 0 < (t.getD i []).length) :
    ((applyScaling scaling mvT t).getD i []).getD ((t.getD i []).length - 1) 0
      = (t.getD i []).getD ((t.getD i []).length - 1) 0 := by
  unfold applyScaling
  split
  · exact scaleAllButLast_getD_last _ _ _ hi h0
  · split
    · exact scaleAllButLast_getD_last _ _ _ hi h0
    · rfl

/-- Helper: entry `k` of a projected row is the coerced raw field at the
`k`-th declared column identifier. -/
theorem projectRow_getD (cols : List Nat) (r : Row) (k : Nat)
    (hk : k < cols.length) :
    (projectRow cols r).getD k 0 = coerce (r.getD (cols.getD k 0) (.num 0)) := by
  have hk2 : k < (projectRow cols r).length := by
    simpa [projectRow] using hk
  rw [List.getD_eq_getElem _ _ hk2, List.getD_eq_getElem _ _ hk]
  simp [projectRow]

/-- Helper: row `i` of the projected table is the projection of retained row
`i`. -/
theorem projectTable_getD (cols : List Nat) (L : List Row) (i : Nat)
    (hi : i < L.length) :
    (L.map (projectRow cols)).getD i [] = projectRow cols (L.getD i []) := by
  have hi2 : i < (L.map (projectRow cols)).length := by simpa using hi
  rw [List.getD_eq_getElem _ _ hi2, List.getD_eq_getElem _ _ hi,
    List.getElem_map]

/-- C1. For every tabular configuration (hence every loader and feature
subset), every scaling mode string and every standardization transform, a
successful call returns one output row per retained input row, every output
row has exactly `len(column_spec)` entries, and the last entry of output row
`i` is the coerced target field (the last declared column identifier) of the
`i`-th retained input row: the target is relocated to the last position and
the scaling step touches only the columns before it. -/
theorem target_last_column (cfg : TabularConfig) (rt scaling : String)
    (mvT : List ℚ → ℚ → ℚ) (rows : List Row) (t : Table)
    (hok : read_all cfg rt scaling mvT rows = .ok t)
    (hne : 0 < cfg.colIdx.length) (i : Nat) (hi : i < t.length) :
    t.length = (applyFilters cfg.filters rows).length ∧
    (t.getD i []).length = cfg.colIdx.length ∧
    (t.getD i []).getD (cfg.colIdx.length - 1) 0
      = coerce (((applyFilters cfg.filters rows).getD i []).getD
          (cfg.colIdx.getD (cfg.colIdx.length - 1) 0) (.num 0)) := by
  have ht := read_all_ok_eq cfg rt scaling mvT rows t hok
  have hlen : t.length = (applyFilters cfg.filters rows).length := by
    rw [ht, applyScaling_length, List.length_map]
  have hikept : i < (applyFilters cfg.filters rows).length := by rwa [← hlen]
  have hiproj :
      i < ((applyFilters cfg.filters rows).map (projectRow cfg.colIdx)).length := by
    rwa [List.length_map]
  have hprow := projectTable_getD cfg.colIdx (applyFilters cfg.filters rows) i hikept
  have hrowlen :
      (((applyFilters cfg.filters rows).map (projectRow cfg.colIdx)).getD i []).length
        = cfg.colIdx.length := by
    rw [hprow]
    simp [projectRow]
  have h0 :
      0 < (((applyFilters cfg.filters rows).map (projectRow cfg.colIdx)).getD i []).length := by
    rwa [hrowlen]
  refine ⟨hlen, ?_, ?_⟩
  · rw [ht, applyScaling_row_length scaling mvT _ i hiproj, hrowlen]
  · rw [ht]
    have hlast := applyScaling_getD_last scaling mvT _ i hiproj h0
    rw [hrowlen] at hlast
    rw [hlast, hprow, projectRow_getD]
    omega

/-- Witness for C1 at a concrete input: the AutoMPG-shaped configuration
`colIdx = [0, 2, 1]` (target = raw column 1) on two rows, with one row
filtered out by a sentinel filter. -/
theorem target_last_column_witness :
    ([[(5 : ℚ), 7, 6]] : Table).length
        = (applyFilters [neqNumFilter 0 (-200)]
            [[Cell.num (-200), Cell.num 1, Cell.num 2],
             [Cell.num 5, Cell.num 6, Cell.num 7]]).length ∧
    (([[(5 : ℚ), 7, 6]] : Table).getD 0 []).length = ([0, 2, 1] : List Nat).length ∧
    (([[(5 : ℚ), 7, 6]] : Table).getD 0 []).getD (([0, 2, 1] : List Nat).length - 1) 0
      = coerce (((applyFilters [neqNumFilter 0 (-200)]
            [[Cell.num (-200), Cell.num 1, Cell.num 2],
             [Cell.num 5, Cell.num 6, Cell.num 7]]).getD 0 []).getD
          (([0, 2, 1] : List Nat).getD (([0, 2, 1] : List Nat).length - 1) 0) (.num 0)) :=
  target_last_column ⟨[neqNumFilter 0 (-200)], [0, 2, 1], false⟩ "np" "None"
    (fun _ x => x)
    [[Cell.num (-200), Cell.num 1, Cell.num 2],
     [Cell.num 5, Cell.num 6, Cell.num 7]]
    [[(5 : ℚ), 7, 6]] (by rfl) (by decide) 0 (by decide)

/-- Helper: folding `min` over the image of a monotone map. -/
theorem foldl_min_map (f : ℚ → ℚ) (hf : Monotone f) :
    ∀ (xs : List ℚ) (a : ℚ), (xs.map f).foldl min (f a) = f (xs.foldl min a) := by
  intro xs
  induction xs with
  | nil => intro a; rfl
  | cons y ys ih =>
      intro a
      simp only [List.map_cons, List.foldl_cons]
      rw [← hf.map_min, ih]

/-- Helper: folding `max` over the image of a monotone map. -/
theorem foldl_max_map (f : ℚ → ℚ) (hf : Monotone f) :
    ∀ (xs : List ℚ) (a : ℚ), (xs.map f).foldl max (f a) = f (xs.foldl max a) := by
  intro xs
  induction xs with
  | nil => intro a; rfl
  | cons y ys ih =>
      intro a
      simp only [List.map_cons, List.foldl_cons]
      rw [← hf.map_max, ih]

/-- Helper: the minimum of the image of a nonempty column under a monotone
map is the image of the minimum. -/
theorem listMin_map_mono (f : ℚ → ℚ) (hf : Monotone f) (x : ℚ) (xs : List ℚ) :
    listMin ((x :: xs).map f) = f (listMin (x :: xs)) := by
  simp only [List.map_cons, listMin]
  exact foldl_min_map f hf xs x

/-- Helper: the maximum of the image of a nonempty column under a monotone
map is the image of the maximum. -/
theorem listMax_map_mono (f : ℚ → ℚ) (hf : Monotone f) (x : ℚ) (xs : List ℚ) :
    listMax ((x :: xs).map f) = f (listMax (x :: xs)) := by
  simp only [List.map_cons, listMax]
  exact foldl_max_map f hf xs x

/-- Helper: a `min`-fold is bounded by its initial value. -/
theorem foldl_min_le_init : ∀ (xs : List ℚ) (a : ℚ), xs.foldl min a ≤ a := by
  intro xs
  induction xs with
  | nil => intro a; exact le_refl a
  | cons y ys ih =>
      intro a
      calc (y :: ys).foldl min a = ys.foldl min (min a y) := rfl
        _ ≤ min a y := ih (min a y)
        _ ≤ a := min_le_left a y

/-- Helper: a `max`-fold dominates its initial value. -/
theorem init_le_foldl_max : ∀ (xs : List ℚ) (a : ℚ), a ≤ xs.foldl max a := by
  intro xs
  induction xs with
  | nil => intro a; exact le_refl a
  | cons y ys ih =>
      intro a
      calc a ≤ max a y := le_max_left a y
        _ ≤ ys.foldl max (max a y) := ih (max a y)
        _ = (y :: ys).foldl max a := rfl

/-- Helper: the column minimum never exceeds the column maximum. -/
theorem listMin_le_listMax (x : ℚ) (xs : List ℚ) :
    listMin (x :: xs) ≤ listMax (x :: xs) :=
  le_trans (foldl_min_le_init xs x) (init_le_foldl_max xs x)

/-- Helper: the fitted min-max transform with target range `(-1, 1)` is
monotone when the observed column range is positive. -/
theorem minMaxF_monotone (c : List ℚ) (hlt : listMin c < listMax c) :
    Monotone (minMaxF (-1) 1 c) := by
  intro a b hab
  unfold minMaxF rangeGuard
  have hd : (0 : ℚ) < listMax c - listMin c := by linarith
  rw [if_neg (by linarith : ¬(listMax c - listMin c = 0))]
  have h1 : (a - listMin c) / (listMax c - listMin c)
      ≤ (b - listMin c) / (listMax c - listMin c) :=
    (div_le_div_iff_of_pos_right hd).mpr (by linarith)
  nlinarith [h1]

/-- Helper: column `j` of the scaled table is the image of column `j` of the
unscaled table under the transform fitted on that column, provided all rows
have the same length `n` and `j` is not the last column. -/
theorem scaleAllButLast_colOf (f : List ℚ → ℚ → ℚ) (t : Table) (j n : Nat)
    (hrows : ∀ r ∈ t, r.length = n) (hj : j + 1 < n) :
    colOf (scaleAllButLast f t) j = (colOf t j).map (f (colOf t j)) := by
  unfold scaleAllButLast
  show (t.map _).map _ = (t.map _).map _
  rw [List.map_map, List.map_map]
  apply List.map_congr_left
  intro r hr
  have hlen : r.length = n := hrows r hr
  have hjr : j < r.length := by omega
  have hjr2 : j < (r.mapIdx fun k x => if k + 1 < r.length then f (colOf t k) x else x).length := by
    rw [List.length_mapIdx]
    exact hjr
  simp only [Function.comp]
  rw [List.getD_eq_getElem _ _ hjr2, List.getD_eq_getElem _ _ hjr,
    List.getElem_mapIdx, if_pos (by omega : j + 1 < r.length)]

/-- Helper: every row of the projected table has `len(column_spec)` entries. -/
theorem proj_rows_length (cfg : TabularConfig) (L : List Row) :
    ∀ r ∈ L.map (projectRow cfg.colIdx), r.length = cfg.colIdx.length := by
  intro r hr
  rcases List.mem_map.mp hr with ⟨s, _, hs⟩
  rw [← hs]
  simp [projectRow]

/-- C4. Under MinMax scaling with feature range `(-1, 1)`, every output column
except the last whose observed (pre-scaling) range is non-zero has minimum
exactly -1 and maximum exactly 1. -/
theorem minmax_scaled_range (cfg : TabularConfig) (rt : String)
    (mvT : List ℚ → ℚ → ℚ) (rows : List Row) (t : Table)
    (hok : read_all cfg rt "MinMax" mvT rows = .ok t)
    (j : Nat) (hj : j + 1 < cfg.colIdx.length)
    (hrange :
      listMin (colOf ((applyFilters cfg.filters rows).map (projectRow cfg.colIdx)) j)
        ≠ listMax (colOf ((applyFilters cfg.filters rows).map (projectRow cfg.colIdx)) j)) :
    listMin (colOf t j) = -1 ∧ listMax (colOf t j) = 1 := by
  have ht := read_all_ok_eq cfg rt "MinMax" mvT rows t hok
  rw [applyScaling, if_pos rfl] at ht
  set proj := (applyFilters cfg.filters rows).map (projectRow cfg.colIdx) with hproj
  set c := colOf proj j with hc
  have hcol : colOf t j = c.map (minMaxF (-1) 1 c) := by
    rw [ht]
    exact scaleAllButLast_colOf (minMaxF (-1) 1) proj j cfg.colIdx.length
      (proj_rows_length cfg (applyFilters cfg.filters rows)) hj
  rcases hne : c with _ | ⟨x, xs⟩
  · rw [hne] at hrange
    exact absurd rfl hrange
  · rw [hne] at hrange
    have hlt : listMin (x :: xs) < listMax (x :: xs) :=
      lt_of_le_of_ne (listMin_le_listMax x xs) hrange
    have hmono := minMaxF_monotone (x :: xs) hlt
    have hd : (0 : ℚ) < listMax (x :: xs) - listMin (x :: xs) := by linarith
    have hguard : rangeGuard (listMax (x :: xs) - listMin (x :: xs))
        = listMax (x :: xs) - listMin (x :: xs) := by
      unfold rangeGuard
      rw [if_neg (by linarith : ¬(listMax (x :: xs) - listMin (x :: xs) = 0))]
    rw [hcol, hne]
    constructor
    · rw [listMin_map_mono _ hmono]
      unfold minMaxF
      rw [hguard, sub_self, zero_div]
      ring
    · rw [listMax_map_mono _ hmono]
      unfold minMaxF
      rw [hguard, div_self (by linarith : listMax (x :: xs) - listMin (x :: xs) ≠ 0)]
      ring

/-- Witness for C4 (the spec's scenario): min-max scaling with range (-1, 1)
on the column `[0, 5, 10]` yields minimum -1 and maximum 1 (the scaled column
is exactly `[-1, 0, 1]`). -/
theorem minmax_scaled_range_witness :
    listMin (colOf [[(-1 : ℚ), 7], [0, 8], [1, 9]] 0) = -1 ∧
    listMax (colOf [[(-1 : ℚ), 7], [0, 8], [1, 9]] 0) = 1 :=
  minmax_scaled_range ⟨[], [0, 1], false⟩ "np" (fun _ x => x)
    [[Cell.num 0, Cell.num 7], [Cell.num 5, Cell.num 8], [Cell.num 10, Cell.num 9]]
    [[(-1 : ℚ), 7], [0, 8], [1, 9]]
    (by norm_num [read_all, applyScaling, applyFilters, projectRow, coerce,
      scaleAllButLast, colOf, minMaxF, listMin, listMax, rangeGuard,
      List.mapIdx_cons])
    0 (by decide) (by decide)

/-- C9. In the AutoMPG handler both feature branches compare
`features == 'continuous'`, so the second (discrete) projection is dead code:
the column selection is either the continuous subset or all eight columns, and
`read_all` with `features = 'discrete'` returns exactly the same result as
with `features = 'all'` for every return type, scaling and input. -/
theorem autoMPG_discrete_branch_dead :
    (∀ features : String,
        autoMPG_cols features = [1, 2, 3, 4, 7] ∨
        autoMPG_cols features = List.range 8) ∧
    ∀ (rt scaling : String) (mvT : List ℚ → ℚ → ℚ) (rows : List Row),
      autoMPG_read_all rt scaling "discrete" mvT rows
        = autoMPG_read_all rt scaling "all" mvT rows := by
  constructor
  · intro features
    unfold autoMPG_cols
    by_cases h : features = "continuous"
    · rw [if_pos h]; exact Or.inl rfl
    · rw [if_neg h, if_neg h]; exact Or.inr rfl
  · intro rt scaling mvT rows
    have hcols : autoMPG_cols "discrete" = autoMPG_cols "all" := by
      unfold autoMPG_cols
      rw [if_neg (by decide : ¬("discrete" = "continuous")),
        if_neg (by decide : ¬("discrete" = "continuous")),
        if_neg (by decide : ¬("all" = "continuous")),
        if_neg (by decide : ¬("all" = "continuous"))]
    unfold autoMPG_read_all
    rw [hcols]

/-! PGM raster decoder of handler_CroppedYaleFacesB.read_pgm: the file is a
stream of characters; `readline` models Python's file `readline` (up to and
including a newline, or to the end of the stream), `splitWs` models
`str.split()` with no argument (split on whitespace runs, no empty tokens),
`parseInt` models `int(str)` (strip whitespace, optional sign, digits), and a
pixel read models `ord(f.read(1))`, which fails at end of file. -/

/-- One line of the stream: the consumed prefix up to and including the first
newline (or the whole stream), and the remainder. -/
def readline : List Char → List Char × List Char
  | [] => ([], [])
  | c :: cs =>
      if c = '\n' then ([c], cs)
      else
        let p := readline cs
        (c :: p.1, p.2)

/-- Accumulator pass for whitespace splitting; `cur` holds the current token
reversed. -/
def splitWsAux : List Char → List Char → List (List Char)
  | cur, [] => if cur = [] then [] else [cur.reverse]
  | cur, c :: cs =>
      if c.isWhitespace then
        if cur = [] then splitWsAux [] cs else cur.reverse :: splitWsAux [] cs
      else splitWsAux (c :: cur) cs

/-- Python `str.split()`: maximal runs of non-whitespace characters. -/
def splitWs (cs : List Char) : List (List Char) :=
  splitWsAux [] cs

/-- Strip leading and trailing whitespace. -/
def stripWs (cs : List Char) : List Char :=
  ((cs.dropWhile Char.isWhitespace).reverse.dropWhile Char.isWhitespace).reverse

/-- A nonempty all-digit string, or a parse failure. -/
def parseDigits : List Char → Option Nat
  | [] => none
  | ds => if ds.all Char.isDigit then some (digitsToNat ds) else none

/-- Python `int(str)`: strip whitespace, optional sign, then digits. -/
def parseInt (cs : List Char) : Option Int :=
  match stripWs cs with
  | '-' :: ds => (parseDigits ds).map fun n => -(n : Int)
  | '+' :: ds => (parseDigits ds).map fun n => (n : Int)
  | ds => (parseDigits ds).map fun n => (n : Int)

/-- Read `w` single-byte samples (`ord(f.read(1))` each); fails at end of
stream. Returns the samples and the rest of the stream. -/
def readRow : Nat → List Char → Option (List Nat × List Char)
  | 0, cs => some ([], cs)
  | _ + 1, [] => none
  | w + 1, c :: cs => (readRow w cs).map fun p => (c.toNat :: p.1, p.2)

/-- Read `h` rows of `w` samples each, in stream order. -/
def readRows : Nat → Nat → List Char → Option (List (List Nat))
  | 0, _, _ => some []
  | h + 1, w, cs =>
      match readRow w cs with
      | none => none
      | some p => (readRows h w p.2).map fun rows => p.1 :: rows

/-- The `read_pgm` decoder: assert the first line is exactly `"P5\n"`, parse
the second line as exactly two integers `width height`, parse the third line
as `max_value` and assert it is at most 255, then read `height` rows of
`width` single-byte samples. Any violated assertion, failed parse, bad token
count or missing byte yields `none`. -/
def read_pgm (input : List Char) : Option (List (List Nat)) :=
  let l1 := readline input
  if l1.1 = ['P', '5', '\n'] then
    let l2 := readline l1.2
    match splitWs l2.1 with
    | [wtok, htok] =>
        match parseInt wtok, parseInt htok with
        | some w, some h =>
            let l3 := readline l2.2
            match parseInt l3.1 with
            | some depth => if depth ≤ 255 then readRows h.toNat w.toNat l3.2 else none
            | none => none
        | _, _ => none
    | _ => none
  else none

/-- Row-major `h × w` grid over a sample stream: row `r` holds samples
`r*w .. r*w + w - 1`. -/
def toGrid : Nat → Nat → List Char → List (List Nat)
  | 0, _, _ => []
  | h + 1, w, cs => (cs.take w).map Char.toNat :: toGrid h w (cs.drop w)

/-- Helper: `readline` consumes exactly the first newline-terminated line. -/
theorem readline_append (tok rest : List Char) (hnl : '\n' ∉ tok) :
    readline (tok ++ '\n' :: rest) = (tok ++ ['\n'], rest) := by
  induction tok with
  | nil => simp [readline]
  | cons c cs ih =>
      have hc : ¬(c = '\n') := fun h => hnl (h ▸ List.mem_cons_self c cs)
      have ih2 := ih fun h => hnl (List.mem_cons_of_mem c h)
      show readline (c :: (cs ++ '\n' :: rest)) = (c :: (cs ++ ['\n']), rest)
      simp only [readline, if_neg hc, ih2]

/-- Helper: the splitter passes over a run of non-whitespace characters,
accumulating it. -/
theorem splitWsAux_token (tok : List Char)
    (htok : ∀ c ∈ tok, c.isWhitespace = false) :
    ∀ (cur rest : List Char),
      splitWsAux cur (tok ++ rest) = splitWsAux (tok.reverse ++ cur) rest := by
  induction tok with
  | nil => intro cur rest; simp
  | cons c cs ih =>
      intro cur rest
      have hc : c.isWhitespace = false := htok c (List.mem_cons_self c cs)
      have ih2 := ih (fun d hd => htok d (List.mem_cons_of_mem c hd)) (c :: cur) rest
      show splitWsAux cur (c :: (cs ++ rest)) = _
      simp only [splitWsAux, hc, Bool.false_eq_true, if_false, ih2,
        List.reverse_cons, List.append_assoc, List.singleton_append]

/-- Helper: the splitter closes the accumulated token at a whitespace
character. -/
theorem splitWsAux_ws (cur : List Char) (hcur : cur ≠ []) (c : Char)
    (hc : c.isWhitespace = true) (cs : List Char) :
    splitWsAux cur (c :: cs) = cur.reverse :: splitWsAux [] cs := by
  simp only [splitWsAux, hc, if_true, if_neg hcur]

/-- Helper: splitting a two-token dimension line `"<wtok> <htok>\n"` yields
exactly the two tokens. -/
theorem splitWs_two_tokens (wtok htok : List Char)
    (hw : wtok ≠ []) (hw2 : ∀ c ∈ wtok, c.isWhitespace = false)
    (hh : htok ≠ []) (hh2 : ∀ c ∈ htok, c.isWhitespace = false) :
    splitWs ((wtok ++ (' ' :: htok)) ++ ['\n']) = [wtok, htok] := by
  unfold splitWs
  rw [List.append_assoc, List.cons_append,
    splitWsAux_token wtok hw2 [] (' ' :: (htok ++ ['\n']))]
  have hwrev : wtok.reverse ++ [] ≠ [] := by simpa using hw
  rw [splitWsAux_ws _ hwrev ' ' (by decide) _,
    splitWsAux_token htok hh2 [] ['\n']]
  have hhrev : htok.reverse ++ [] ≠ [] := by simpa using hh
  rw [show (['\n'] : List Char) = '\n' :: [] from rfl,
    splitWsAux_ws _ hhrev '\n' (by decide) []]
  simp [splitWsAux]

/-- Helper: reading one row of `w` samples succeeds exactly on the first `w`
stream characters when at least `w` remain. -/
theorem readRow_spec : ∀ (w : Nat) (cs : List Char), w ≤ cs.length →
    readRow w cs = some ((cs.take w).map Char.toNat, cs.drop w) := by
  intro w
  induction w with
  | zero => intro cs _; simp [readRow]
  | succ v ih =>
      intro cs hlen
      match cs with
      | [] => simp at hlen
      | c :: cs2 =>
          have hlen2 : v ≤ cs2.length := by
            simpa using Nat.le_of_succ_le_succ hlen
          simp [readRow, ih cs2 hlen2]

/-- Helper: reading `h` rows of `w` samples succeeds and produces the
row-major grid when at least `h * w` stream characters remain. -/
theorem readRows_spec : ∀ (h w : Nat) (cs : List Char), h * w ≤ cs.length →
    readRows h w cs = some (toGrid h w cs) := by
  intro h
  induction h with
  | zero => intro w cs _; simp [readRows, toGrid]
  | succ g ih =>
      intro w cs hlen
      have hw : w ≤ cs.length := by
        have : w ≤ (g + 1) * w := by
          calc w = 1 * w := (Nat.one_mul w).symm
            _ ≤ (g + 1) * w := Nat.mul_le_mul_right w (by omega)
        omega
      have hrest : g * w ≤ (cs.drop w).length := by
        rw [List.length_drop]
        have : (g + 1) * w = g * w + w := by ring
        omega
      simp [readRows, readRow_spec w cs hw, ih w (cs.drop w) hrest, toGrid]

/-- Helper: the row-major grid has `h` rows. -/
theorem toGrid_length (h w : Nat) (cs : List Char) : (toGrid h w cs).length = h := by
  induction h generalizing cs with
  | zero => rfl
  | succ g ih => simp [toGrid, ih]

/-- Helper: every row of the row-major grid has `w` entries when the stream is
long enough. -/
theorem toGrid_row_length : ∀ (h w : Nat) (cs : List Char), h * w ≤ cs.length →
    ∀ row ∈ toGrid h w cs, row.length = w := by
  intro h
  induction h with
  | zero => intro w cs _ row hrow; simp [toGrid] at hrow
  | succ g ih =>
      intro w cs hlen row hrow
      have hw : w ≤ cs.length := by
        have : w ≤ (g + 1) * w := by
          calc w = 1 * w := (Nat.one_mul w).symm
            _ ≤ (g + 1) * w := Nat.mul_le_mul_right w (by omega)
        omega
      rcases List.mem_cons.mp (by simpa [toGrid] using hrow) with h1 | h2
      · rw [h1]
        simp only [List.length_map, List.length_take]
        omega
      · have hrest : g * w ≤ (cs.drop w).length := by
          rw [List.length_drop]
          have : (g + 1) * w = g * w + w := by ring
          omega
        exact ih w (cs.drop w) hrest row h2

/-- Helper: entry `(r, c)` of the row-major grid is sample `r * w + c` of the
stream. -/
theorem toGrid_getD : ∀ (h w : Nat) (cs : List Char), h * w ≤ cs.length →
    ∀ r c : Nat, r < h → c < w →
      ((toGrid h w cs).getD r []).getD c 0 = (cs.getD (r * w + c) ' ').toNat := by
  intro h
  induction h with
  | zero => intro w cs _ r c hr; omega
  | succ g ih =>
      intro w cs hlen r c hr hc
      have hcw : c < cs.length := by
        have : w ≤ (g + 1) * w := by
          calc w = 1 * w := (Nat.one_mul w).symm
            _ ≤ (g + 1) * w := Nat.mul_le_mul_right w (by omega)
        omega
      match r with
      | 0 =>
          have hctake : c < ((cs.take w).map Char.toNat).length := by
            simp [List.length_take]
            omega
          have hcs : 0 * w + c < cs.length := by omega
          simp only [toGrid, List.getD_cons_zero]
          rw [List.getD_eq_getElem _ _ hctake, List.getD_eq_getElem _ _ hcs]
          simp
      | r + 1 =>
          have hrest : g * w ≤ (cs.drop w).length := by
            rw [List.length_drop]
            have : (g + 1) * w = g * w + w := by ring
            omega
          have hidx : r * w + c < (cs.drop w).length := by
            rw [List.length_drop]
            have h1 : r * w + c < (r + 1) * w := by
              have : (r + 1) * w = r * w + w := by ring
              omega
            have h2 : (r + 1) * w ≤ g * w := Nat.mul_le_mul_right w (by omega)
            have h3 : (g + 1) * w = g * w + w := by ring
            omega
          have hwle : w ≤ cs.length := by
            have h1 : w ≤ (g + 1) * w := by
              calc w = 1 * w := (Nat.one_mul w).symm
                _ ≤ (g + 1) * w := Nat.mul_le_mul_right w (by omega)
            omega
          have hidx2 : (r + 1) * w + c < cs.length := by
            have hidx3 := hidx
            rw [List.length_drop] at hidx3
            have h2 : (r + 1) * w + c = w + (r * w + c) := by ring
            omega
          simp only [toGrid, List.getD_cons_succ]
          rw [ih w (cs.drop w) hrest r c (by omega) hc]
          rw [List.getD_eq_getElem _ _ hidx, List.getD_eq_getElem _ _ hidx2]
          simp only [List.getElem_drop]
          congr 1
          ring_nf

/-- C3. For every well-formed PGM stream (magic line `"P5\n"`, a dimension
line holding exactly the two integer tokens `width height`, a `max_value`
line parsing to at most 255, and exactly `width * height` sample bytes), the
decoder succeeds and returns the `height × width` grid whose entry `(r, c)`
is sample number `r * width + c` of the payload, read in row-major order. -/
theorem pgm_decode_wellformed (wtok htok dtok pix : List Char) (w h d : Int)
    (hwt : wtok ≠ []) (hwt2 : ∀ c ∈ wtok, c.isWhitespace = false)
    (hht : htok ≠ []) (hht2 : ∀ c ∈ htok, c.isWhitespace = false)
    (hw : parseInt wtok = some w) (hh : parseInt htok = some h)
    (hdnl : '\n' ∉ dtok) (hd : parseInt (dtok ++ ['\n']) = some d)
    (hdepth : d ≤ 255) (hlen : pix.length = h.toNat * w.toNat) :
    read_pgm (['P', '5', '\n'] ++ ((wtok ++ (' ' :: htok)) ++ ['\n'])
        ++ (dtok ++ ['\n']) ++ pix)
      = some (toGrid h.toNat w.toNat pix) ∧
    (toGrid h.toNat w.toNat pix).length = h.toNat ∧
    (∀ row ∈ toGrid h.toNat w.toNat pix, row.length = w.toNat) ∧
    ∀ r c : Nat, r < h.toNat → c < w.toNat →
      ((toGrid h.toNat w.toNat pix).getD r []).getD c 0
        = (pix.getD (r * w.toNat + c) ' ').toNat := by
  refine ⟨?_, toGrid_length _ _ _, toGrid_row_length _ _ _ (le_of_eq hlen.symm),
    toGrid_getD _ _ _ (le_of_eq hlen.symm)⟩
  have hinput : ['P', '5', '\n'] ++ ((wtok ++ (' ' :: htok)) ++ ['\n'])
        ++ (dtok ++ ['\n']) ++ pix
      = 'P' :: '5' :: '\n'
        :: ((wtok ++ (' ' :: htok)) ++ '\n' :: (dtok ++ '\n' :: pix)) := by
    simp
  rw [hinput]
  unfold read_pgm
  have hnlmid : '\n' ∉ wtok ++ (' ' :: htok) := by
    intro hmem
    rcases List.mem_append.mp hmem with h1 | h1
    · have := hwt2 '\n' h1
      simp [Char.isWhitespace] at this
    · rcases List.mem_cons.mp h1 with h2 | h2
      · exact absurd h2.symm (by decide)
      · have := hht2 '\n' h2
        simp [Char.isWhitespace] at this
  have hline1 : readline ('P' :: '5' :: '\n'
        :: ((wtok ++ (' ' :: htok)) ++ '\n' :: (dtok ++ '\n' :: pix)))
      = (['P', '5', '\n'], (wtok ++ (' ' :: htok)) ++ '\n' :: (dtok ++ '\n' :: pix)) := by
    simp [readline]
  rw [hline1]
  simp only [if_pos rfl]
  rw [readline_append _ _ hnlmid]
  rw [splitWs_two_tokens wtok htok hwt hwt2 hht hht2]
  simp only [hw, hh, readline_append _ _ hdnl, hd, if_pos hdepth]
  exact readRows_spec h.toNat w.toNat pix (le_of_eq hlen.symm)

/-- Witness for C3 (the spec's scenario): the header `"P5\n3 2\n255\n"`
followed by the six bytes 0, 128, 255, 10, 20, 30 decodes to the 2×3 grid
`[[0, 128, 255], [10, 20, 30]]`. -/
theorem pgm_decode_wellformed_witness :
    read_pgm (['P', '5', '\n'] ++ ((['3'] ++ (' ' :: ['2'])) ++ ['\n'])
        ++ (['2', '5', '5'] ++ ['\n'])
        ++ [Char.ofNat 0, Char.ofNat 128, Char.ofNat 255,
            Char.ofNat 10, Char.ofNat 20, Char.ofNat 30])
      = some [[0, 128, 255], [10, 20, 30]] := by
  have h := pgm_decode_wellformed ['3'] ['2'] ['2', '5', '5']
    [Char.ofNat 0, Char.ofNat 128, Char.ofNat 255,
     Char.ofNat 10, Char.ofNat 20, Char.ofNat 30]
    3 2 255 (by decide) (by decide) (by decide) (by decide)
    (by decide) (by decide) (by decide) (by decide) (by decide) (by decide)
  rw [h.1]
  rfl

/-- C5. The decoder produces a grid only when the header is well formed: a
successful decode implies the first line is exactly the magic `"P5\n"` (so
the first header token is the literal `P5`), the dimension line splits into
exactly two tokens both parsing as integers, and the `max_value` line parses
as an integer that is at most 255. Contrapositively, the decoder fails
whenever the magic token differs, a header numeric field fails to parse, or
the declared `max_value` exceeds 255. -/
theorem pgm_success_conditions (input : List Char) (g : List (List Nat))
    (hok : read_pgm input = some g) :
    (readline input).1 = ['P', '5', '\n'] ∧
    (∃ wt ht : List Char, ∃ w h : Int,
        splitWs (readline (readline input).2).1 = [wt, ht] ∧
        parseInt wt = some w ∧ parseInt ht = some h) ∧
    ∃ d : Int,
      parseInt (readline (readline (readline input).2).2).1 = some d ∧ d ≤ 255 := by
  simp only [read_pgm] at hok
  by_cases h1 : (readline input).1 = ['P', '5', '\n']
  · rw [if_pos h1] at hok
    refine ⟨h1, ?_⟩
    split at hok
    · rename_i wt ht hsp
      split at hok
      · rename_i w hv hw hh
        refine ⟨⟨wt, ht, w, hv, hsp, hw, hh⟩, ?_⟩
        split at hok
        · rename_i depth hdv
          by_cases hdle : depth ≤ 255
          · exact ⟨depth, hdv, hdle⟩
          · rw [if_neg hdle] at hok
            cases hok
        · cases hok
      · cases hok
    · cases hok
  · rw [if_neg h1] at hok
    cases hok

/-- Witness for C5: the scenario stream decodes successfully, and its header
facts (magic line, two parsed dimension tokens, max value at most 255) hold. -/
theorem pgm_success_conditions_witness :
    (readline (['P', '5', '\n'] ++ (['3'] ++ ' ' :: ['2'] ++ ['\n'])
        ++ (['2', '5', '5'] ++ ['\n'])
        ++ [Char.ofNat 0, Char.ofNat 128, Char.ofNat 255,
            Char.ofNat 10, Char.ofNat 20, Char.ofNat 30])).1 = ['P', '5', '\n'] ∧
    (∃ wt ht : List Char, ∃ w h : Int,
        splitWs (readline (readline (['P', '5', '\n'] ++ (['3'] ++ ' ' :: ['2'] ++ ['\n'])
            ++ (['2', '5', '5'] ++ ['\n'])
            ++ [Char.ofNat 0, Char.ofNat 128, Char.ofNat 255,
                Char.ofNat 10, Char.ofNat 20, Char.ofNat 30])).2).1 = [wt, ht] ∧
        parseInt wt = some w ∧ parseInt ht = some h) ∧
    ∃ d : Int,
      parseInt (readline (readline (readline (['P', '5', '\n']
          ++ (['3'] ++ ' ' :: ['2'] ++ ['\n']) ++ (['2', '5', '5'] ++ ['\n'])
          ++ [Char.ofNat 0, Char.ofNat 128, Char.ofNat 255,
              Char.ofNat 10, Char.ofNat 20, Char.ofNat 30])).2).2).1 = some d ∧
      d ≤ 255 :=
  pgm_success_conditions _ [[0, 128, 255], [10, 20, 30]] (by decide)

/-! Batch image reader of handler_CroppedYaleFacesB.read_subject_all: the
glob result is modelled as a list of (filename, decoded image) pairs; the
entry whose name contains "Ambient" is removed, the first remaining image
fixes the expected shape, and the images are assembled either as a 3D stack
(`datashape = "matrices"`) or as a matrix of row-major flattened columns
(`datashape = "columns"`).  Any other `datashape` leaves the local `data`
unassigned, so the final `return data` raises an (undeclared) NameError. -/

/-- Decoded raster image as a list of pixel rows. -/
abbrev Image := List (List ℚ)

/-- Token matching at the head of a character list. -/
def startsWith : List Char → List Char → Bool
  | [], _ => true
  | _ :: _, [] => false
  | p :: ps, c :: cs => p == c && startsWith ps cs

/-- Python substring containment `pat in s`. -/
def hasSub (pat : List Char) : List Char → Bool
  | [] => decide (pat = [])
  | c :: cs => startsWith pat (c :: cs) || hasSub pat cs

/-- The ambient-variant marker in a database filename. -/
def ambientTag : List Char :=
  ['A', 'm', 'b', 'i', 'e', 'n', 't']

/-- The file list after removing the ambient image:
`[item for item in files if "Ambient" not in item]`. -/
def keptFiles (files : List (List Char × Image)) : List (List Char × Image) :=
  files.filter fun f => !(hasSub ambientTag f.1)

/-- Row-major flattening of one image, the embedding of `numpy.ravel`. -/
def ravel (img : Image) : List ℚ :=
  img.flatten

/-- The `"columns"` assembly `data[:, i] = image_i.ravel()` on a zero matrix
of shape `(n_pixel, n_images)`: entry `(p, i)` is sample `p` of the row-major
flattening of image `i`. -/
def facesColumns (npixel : Nat) (imgs : List Image) : List (List ℚ) :=
  (List.range npixel).map fun p => imgs.map fun img => (ravel img).getD p 0

/-- The `"matrices"` assembly `data[i, :, :] = image_i` on a zero array of
shape `(n_images, nr, nc)`: slice `i` holds pixel `(r, c)` of image `i`. -/
def facesMatrices (nr nc : Nat) (imgs : List Image) : List Image :=
  imgs.map fun img =>
    (List.range nr).map fun r => (List.range nc).map fun c => (img.getD r []).getD c 0

/-- The two shapes `read_subject_all` can return. -/
inductive FacesData
  | matrices (stack : List Image)
  | columns (mat : List (List ℚ))
deriving DecidableEq, Repr

/-- The `read_subject_all` pipeline: drop the ambient file, read the first
remaining image to fix the pixel format (IndexError on an empty list), then
assemble according to `datashape`; any other `datashape` value reaches
`return data` with `data` never assigned, a NameError. -/
def read_subject_all (files : List (List Char × Image)) (datashape : String) :
    Except PyError FacesData :=
  match keptFiles files with
  | [] => .error .indexError
  | f0 :: rest =>
      let imgs := (f0 :: rest).map Prod.snd
      let nr := f0.2.length
      let nc := (f0.2.headD []).length
      if datashape = "matrices" then .ok (.matrices (facesMatrices nr nc imgs))
      else if datashape = "columns" then .ok (.columns (facesColumns (nr * nc) imgs))
      else .error .nameError

/-- Helper: reading every position of a list back by index reproduces the
list. -/
theorem getD_range_id (xs : List ℚ) (d : ℚ) :
    (List.range xs.length).map (fun p => xs.getD p d) = xs := by
  induction xs with
  | nil => simp
  | cons x t ih =>
      simp only [List.length_cons, List.range_succ_eq_map, List.map_cons, List.map_map]
      have hcomp : ((fun p => (x :: t).getD p d) ∘ Nat.succ) = fun p => t.getD p d := by
        funext p
        simp [List.getD_cons_succ]
      rw [hcomp, ih]
      simp

/-- Helper: same index read-back for a list of rows. -/
theorem getD_range_id_rows (xs : List (List ℚ)) (d : List ℚ) :
    (List.range xs.length).map (fun p => xs.getD p d) = xs := by
  induction xs with
  | nil => simp
  | cons x t ih =>
      simp only [List.length_cons, List.range_succ_eq_map, List.map_cons, List.map_map]
      have hcomp : ((fun p => (x :: t).getD p d) ∘ Nat.succ) = fun p => t.getD p d := by
        funext p
        simp [List.getD_cons_succ]
      rw [hcomp, ih]
      simp

/-- Helper: the length of a row-major flattening of a rectangular image. -/
theorem ravel_length (img : Image) (nc : Nat)
    (h2 : ∀ row ∈ img, row.length = nc) :
    (ravel img).length = img.length * nc := by
  induction img with
  | nil => simp [ravel]
  | cons r t ih =>
      have hr : r.length = nc := h2 r (List.mem_cons_self r t)
      have ih2 := ih fun row hrow => h2 row (List.mem_cons_of_mem r hrow)
      show (r ++ t.flatten).length = (t.length + 1) * nc
      rw [List.length_append, hr]
      have : (t.flatten).length = t.length * nc := ih2
      rw [this]
      ring

/-- Helper: rebuilding a rectangular image pixel by pixel reproduces it. -/
theorem rebuild_image_eq (img : Image) (nr nc : Nat)
    (h1 : img.length = nr) (h2 : ∀ row ∈ img, row.length = nc) :
    ((List.range nr).map fun r =>
        (List.range nc).map fun c => (img.getD r []).getD c 0) = img := by
  subst h1
  have hrow : ∀ r ∈ List.range img.length,
      ((List.range nc).map fun c => (img.getD r []).getD c 0) = img.getD r [] := by
    intro r hr
    have hrlt : r < img.length := List.mem_range.mp hr
    have hmem : img.getD r [] ∈ img := by
      rw [List.getD_eq_getElem _ _ hrlt]
      exact List.getElem_mem hrlt
    have hlen : (img.getD r []).length = nc := h2 _ hmem
    rw [← hlen]
    exact getD_range_id (img.getD r []) 0
  rw [List.map_congr_left hrow]
  exact getD_range_id_rows img []

/-- Helper: column `i` of the `"columns"` assembly is the flattening of image
`i`, provided that flattening has exactly `npixel` samples. -/
theorem facesColumns_col (npixel : Nat) (imgs : List Image) (i : Nat)
    (hi : i < imgs.length)
    (hlen : (ravel (imgs.getD i [])).length = npixel) :
    (facesColumns npixel imgs).map (fun row => row.getD i 0)
      = ravel (imgs.getD i []) := by
  unfold facesColumns
  rw [List.map_map]
  have hstep : ∀ p ∈ List.range npixel,
      ((fun row => row.getD i (0 : ℚ)) ∘ fun p => imgs.map fun img => (ravel img).getD p 0) p
        = (ravel (imgs.getD i [])).getD p 0 := by
    intro p _
    simp only [Function.comp]
    have hi2 : i < (imgs.map fun img => (ravel img).getD p 0).length := by
      simpa using hi
    rw [List.getD_eq_getElem _ _ hi2, List.getD_eq_getElem _ _ hi, List.getElem_map]
  rw [List.map_congr_left hstep, ← hlen]
  exact getD_range_id (ravel (imgs.getD i [])) 0

/-- C6. The batch reader excludes the file flagged as the ambient variant,
and its two output shapes hold the same values only reshaped: for every file
list whose retained images all share the (positive) shape `nr × nc`, column
`i` of the `"columns"` matrix equals the row-major flattening of slice `i` of
the `"matrices"` stack. -/
theorem faces_columns_eq_matrices (files : List (List Char × Image))
    (M : List (List ℚ)) (S : List Image) (nr nc : Nat) (hnr : 0 < nr)
    (hshape : ∀ f ∈ keptFiles files, f.2.length = nr ∧ ∀ row ∈ f.2, row.length = nc)
    (hcol : read_subject_all files "columns" = .ok (.columns M))
    (hmat : read_subject_all files "matrices" = .ok (.matrices S))
    (i : Nat) (hi : i < S.length) :
    (∀ f ∈ keptFiles files, hasSub ambientTag f.1 = false) ∧
    M.map (fun row => row.getD i 0) = ravel (S.getD i []) := by
  constructor
  · intro f hf
    have := List.of_mem_filter hf
    simpa using this
  · rcases hk : keptFiles files with _ | ⟨f0, rest⟩
    · simp only [read_subject_all, hk] at hcol
      cases hcol
    · simp only [read_subject_all, hk] at hcol
      simp only [read_subject_all, hk] at hmat
      simp only [if_true] at hcol hmat
      have hM : M = facesColumns (f0.2.length * (f0.2.headD []).length)
          ((f0 :: rest).map Prod.snd) :=
        ((FacesData.columns.inj (Except.ok.inj hcol))).symm
      have hS : S = facesMatrices f0.2.length (f0.2.headD []).length
          ((f0 :: rest).map Prod.snd) :=
        ((FacesData.matrices.inj (Except.ok.inj hmat))).symm
      have hf0 : f0 ∈ keptFiles files := by
        rw [hk]
        exact List.mem_cons_self f0 rest
      have hf0shape := hshape f0 hf0
      have hnr0 : f0.2.length = nr := hf0shape.1
      have hnc0 : (f0.2.headD []).length = nc := by
        rcases hhead : f0.2 with _ | ⟨row0, rows⟩
        · rw [hhead] at hnr0
          simp at hnr0
          omega
        · have hmem : row0 ∈ f0.2 := by
            rw [hhead]
            exact List.mem_cons_self row0 rows
          have hlen := hf0shape.2 row0 hmem
          simpa using hlen
      have hSlen : S.length = ((f0 :: rest).map Prod.snd).length := by
        rw [hS]
        simp [facesMatrices]
      have hiimg : i < ((f0 :: rest).map Prod.snd).length := by
        rw [← hSlen]
        exact hi
      have himgshape : (((f0 :: rest).map Prod.snd).getD i []).length = nr ∧
          ∀ row ∈ ((f0 :: rest).map Prod.snd).getD i [], row.length = nc := by
        have hmem : ((f0 :: rest).map Prod.snd).getD i [] ∈ (f0 :: rest).map Prod.snd := by
          rw [List.getD_eq_getElem _ _ hiimg]
          exact List.getElem_mem hiimg
        rcases List.mem_map.mp hmem with ⟨f, hfmem, hfeq⟩
        have hfk : f ∈ keptFiles files := by
          rw [hk]
          exact hfmem
        rw [← hfeq]
        exact hshape f hfk
      have hSi : S.getD i [] = ((f0 :: rest).map Prod.snd).getD i [] := by
        rw [hS]
        unfold facesMatrices
        have hi3 : i < (((f0 :: rest).map Prod.snd).map fun img =>
            (List.range f0.2.length).map fun r =>
              (List.range (f0.2.headD []).length).map fun c =>
                (img.getD r []).getD c 0).length := by
          simpa using hiimg
        rw [List.getD_eq_getElem _ _ hi3, List.getElem_map,
          ← List.getD_eq_getElem _ [] hiimg, hnr0, hnc0]
        exact rebuild_image_eq _ nr nc himgshape.1 himgshape.2
      have hravlen : (ravel (((f0 :: rest).map Prod.snd).getD i [])).length
          = f0.2.length * (f0.2.headD []).length := by
        rw [ravel_length _ nc himgshape.2, himgshape.1, hnr0, hnc0]
      rw [hM, hSi, facesColumns_col _ _ i hiimg hravlen]

/-- Witness for C6: a subject with one ambient file (excluded) and one 2 x 2
image; column 0 of the columns matrix is the row-major flattening
`[1, 2, 3, 4]` of slice 0 of the matrices stack. -/
theorem faces_columns_eq_matrices_witness :
    (∀ f ∈ keptFiles
        [((['y', 'B'] : List Char), ([[(1 : ℚ), 2], [3, 4]] : Image)),
         ((['A', 'm', 'b', 'i', 'e', 'n', 't'] : List Char), ([[9, 9], [9, 9]] : Image))],
      hasSub ambientTag f.1 = false) ∧
    ([[(1 : ℚ)], [2], [3], [4]] : List (List ℚ)).map (fun row => row.getD 0 0)
      = ravel (([[[(1 : ℚ), 2], [3, 4]]] : List Image).getD 0 []) :=
  faces_columns_eq_matrices
    [((['y', 'B'] : List Char), ([[(1 : ℚ), 2], [3, 4]] : Image)),
     ((['A', 'm', 'b', 'i', 'e', 'n', 't'] : List Char), ([[9, 9], [9, 9]] : Image))]
    [[(1 : ℚ)], [2], [3], [4]] [[[(1 : ℚ), 2], [3, 4]]] 2 2
    (by decide) (by decide) (by rfl) (by rfl) 0 (by decide)

/-- C10. For a `datashape` other than `"columns"` and `"matrices"` (and a
nonempty retained file list), `read_subject_all` neither returns an image
collection nor raises the loaders declared configuration error: the local
`data` is assigned only in the two recognized branches, so the trailing
`return data` raises a NameError, whereas every tabular `read_all` call
signals an invalid return type with its explicit RuntimeError and never
raises a NameError. -/
theorem read_subject_all_invalid_datashape (files : List (List Char × Image))
    (ds : String) (h1 : ds ≠ "matrices") (h2 : ds ≠ "columns")
    (h3 : keptFiles files ≠ []) :
    read_subject_all files ds = .error .nameError ∧
    ∀ (cfg : TabularConfig) (rt scaling : String) (mvT : List ℚ → ℚ → ℚ)
      (rows : List Row), read_all cfg rt scaling mvT rows ≠ .error .nameError := by
  constructor
  · rcases hk : keptFiles files with _ | ⟨f0, rest⟩
    · exact absurd hk h3
    · simp only [read_subject_all, hk]
      rw [if_neg h1, if_neg h2]
  · intro cfg rt scaling mvT rows hcontra
    simp only [read_all] at hcontra
    by_cases hnp : rt = "np"
    · rw [if_pos hnp] at hcontra
      cases hcontra
    · rw [if_neg hnp] at hcontra
      by_cases hpd : cfg.allowPd = true ∧ rt = "pd"
      · rw [if_pos hpd] at hcontra
        cases hcontra
      · rw [if_neg hpd] at hcontra
        simp at hcontra

/-- Witness for C10: `datashape = "rows"` on a one-file subject yields the
NameError, and no tabular loader call can produce that error. -/
theorem read_subject_all_invalid_datashape_witness :
    read_subject_all [((['x'] : List Char), ([[1]] : Image))] "rows"
        = .error .nameError ∧
    ∀ (cfg : TabularConfig) (rt scaling : String) (mvT : List ℚ → ℚ → ℚ)
      (rows : List Row), read_all cfg rt scaling mvT rows ≠ .error .nameError :=
  read_subject_all_invalid_datashape [((['x'] : List Char), ([[1]] : Image))]
    "rows" (by decide) (by decide) (by decide)

end DbHand
